import Mathlib

/-!
Shallow embedding of the `argpoints` subcommand dispatcher
(`src/argpoints/__init__.py`), specialized to POSIX semantics
(`sys.platform` does not start with `"win"`, `os.sep = "/"`,
`os.pathsep = ":"`), together with the pieces of the Python standard
library the module calls into (`str.split`, `str.join`,
`os.path.dirname`, `os.path.join`, `shutil.which`).

Ambient process and filesystem state (environment variables, `sys.argv`,
`os.listdir`, `os.access`, ...) is abstracted as an explicit `Sys` record
of pure query functions, so that every operation of the module becomes a
pure function of a `Sys` value.
-/

namespace Argpoints

/-! ### Python string primitives -/

/-- Python `s.split(sep)` for a one-character separator `sep`.
`splitCharAux sep cs acc` processes the remaining characters `cs` with the
(reversed) characters of the current field in `acc`. -/
def splitCharAux (sep : Char) : List Char → List Char → List String
  | [], acc => [String.mk acc.reverse]
  | c :: cs, acc =>
    if c == sep then String.mk acc.reverse :: splitCharAux sep cs []
    else splitCharAux sep cs (c :: acc)

/-- Python `s.split(sep)` for a one-character separator. -/
def splitChar (sep : Char) (s : String) : List String :=
  splitCharAux sep s.data []

/-- Python `sep.join(l)` for a one-character separator. -/
def joinChar (sep : Char) : List String → String
  | [] => ""
  | [s] => s
  | s :: ss => s ++ String.singleton sep ++ joinChar sep ss

/-- Helper for Python `s.startswith(p)`: `listStarts p c` decides whether the
character list `p` is an initial segment of `c`. -/
def listStarts : List Char → List Char → Bool
  | [], _ => true
  | _ :: _, [] => false
  | p :: ps, c :: cs => p == c && listStarts ps cs

/-- Python `s.startswith(p)`. -/
def strStarts (s p : String) : Bool := listStarts p.data s.data

/-- Code-point lexicographic comparison of character lists: the order Python
uses to compare `str` values (and hence the order of `sorted`). -/
def lexLt : List Char → List Char → Bool
  | [], [] => false
  | [], _ :: _ => true
  | _ :: _, [] => false
  | a :: as, b :: bs =>
    if a.toNat < b.toNat then true
    else if b.toNat < a.toNat then false
    else lexLt as bs

/-- Python `a <= b` on strings (code-point lexicographic). -/
def pyLe (a b : String) : Bool := !(lexLt b.data a.data)

/-- The sorting relation used to model Python's `sorted` on strings. -/
def pySortRel (a b : String) : Prop := pyLe a b = true

instance : DecidableRel pySortRel := fun a b => by
  unfold pySortRel
  infer_instance

/-- Python `str.capitalize()`: first character upper-cased, the rest
lower-cased. -/
def pyCapitalize (s : String) : String :=
  match s.data with
  | [] => ""
  | c :: cs => String.mk (c.toUpper :: cs.map Char.toLower)

/-- POSIX `os.path.dirname`: everything up to the last `/`, with trailing
slashes stripped unless the head consists only of slashes. -/
def dirname (p : String) : String :=
  let cs := p.data
  let i := cs.length - (cs.reverse.takeWhile (fun c => !(c == '/'))).length
  let head := cs.take i
  if head ≠ [] ∧ ¬(head.all (fun c => c == '/')) then
    String.mk (head.reverse.dropWhile (fun c => c == '/')).reverse
  else String.mk head

/-- POSIX `os.path.join(a, b)`. -/
def pathJoin (a b : String) : String :=
  if b.data.head? == some '/' then b
  else if a == "" || a.data.getLast? == some '/' then a ++ b
  else a ++ "/" ++ b

/-! ### Ambient process and filesystem state -/

/-- The ambient process/filesystem state read by the module, as pure query
functions: `pathEnv` is `os.environ.get("PATH")` (`none` when unset),
`defpath` is `os.defpath`, `scriptsDir` is `sysconfig.get_path("scripts")`
(`none` when that raises `KeyError`), `argv0` is `sys.argv[0]`, `islink` is
`os.path.islink`, `realpath` is `os.path.realpath`, `isdir` is
`os.path.isdir`, `accessX` is `os.access(·, os.X_OK)`, `pathExists` is
`os.path.exists` (equivalently `os.access(·, os.F_OK)`), and `listdir` is
`os.listdir` with `none` standing for an `OSError`. -/
structure Sys where
  pathEnv : Option String
  defpath : String
  scriptsDir : Option String
  argv0 : String
  islink : String → Bool
  realpath : String → String
  isdir : String → Bool
  accessX : String → Bool
  pathExists : String → Bool
  listdir : String → Option (List String)

/-! ### The argpoints module -/

/-- `_path_with_self` from `src/argpoints/__init__.py`:
`(os.environ.get("PATH") or os.defpath).split(os.pathsep)` (note Python's
`or` also takes the default when `PATH` is the empty string), then the
`sysconfig` scripts directory appended when reported, then for `sys.argv[0]`
(and additionally its `realpath` when it is a symlink) the containing
directory is inserted at position 0 when it is a directory and the script is
executable. -/
def _path_with_self (sys : Sys) : List String :=
  let path_list := splitChar ':'
    (match sys.pathEnv with
     | some p => if p == "" then sys.defpath else p
     | none => sys.defpath)
  let path_list := match sys.scriptsDir with
    | none => path_list
    | some bindir => path_list ++ [bindir]
  let scripts := if sys.islink sys.argv0 then
    [sys.argv0, sys.realpath sys.argv0]
  else
    [sys.argv0]
  scripts.foldl
    (fun pl script =>
      if sys.isdir (dirname script) && sys.accessX script then
        dirname script :: pl
      else pl)
    path_list

/-- The candidate tuples one directory contributes in `list_subcommands`:
`os.listdir(d)` (an `OSError` contributes nothing), keep the names starting
with `f"{command_name}-"`, and record `tuple(name.split("-")[1:])`. -/
def dirTuples (sys : Sys) (command_name : String) (d : String) :
    List (List String) :=
  match sys.listdir d with
  | none => []
  | some names =>
    (names.filter (fun name => strStarts name (command_name ++ "-"))).map
      (fun name => (splitChar '-' name).drop 1)

/-- The raw discovered `subcommand_tuples` set of `list_subcommands`,
as the list of tuples contributed by the directories of `_path_with_self`
(set semantics: only membership is ever used). -/
def subcommandTuples (sys : Sys) (command_name : String) :
    List (List String) :=
  (_path_with_self sys).flatMap (dirTuples sys command_name)

/-- The membership test of the filtering loop of `list_subcommands`:
`not any(sub_tup[:i] in subcommand_tuples for i in range(1, len(sub_tup)))`. -/
def notShadowed (subcommand_tuples : List (List String))
    (sub_tup : List String) : Bool :=
  !((List.range' 1 (sub_tup.length - 1)).any
      (fun i => subcommand_tuples.contains (sub_tup.take i)))

/-- `list_subcommands` from `src/argpoints/__init__.py` (POSIX branch: no
file-extension stripping): discover the raw tuples, keep those with no
strict non-empty leading segment sequence already discovered, join each
surviving tuple with `"-"`, and return the `sorted` set (modelled as
deduplication followed by an insertion sort under Python's string order). -/
def list_subcommands (sys : Sys) (command_name : String) : List String :=
  let subcommand_tuples := subcommandTuples sys command_name
  let subcommands :=
    (subcommand_tuples.filter (notShadowed subcommand_tuples)).map
      (joinChar '-')
  List.insertionSort pySortRel subcommands.dedup

/-- `_access_check(fn, os.F_OK)` from `shutil.which`: the file exists (the
`os.access(fn, os.F_OK)` conjunct coincides with existence) and is not a
directory. -/
def accessCheckF (sys : Sys) (fn : String) : Bool :=
  sys.pathExists fn && !sys.isdir fn

/-- The directory loop of `shutil.which` (POSIX: `normcase` is the identity
and the candidate file list is `[cmd]`): skip directories already seen,
otherwise return `os.path.join(dir, cmd)` as soon as it passes
`_access_check`. -/
def whichSearch (sys : Sys) (cmd : String) :
    List String → List String → Option String
  | [], _ => none
  | dir :: rest, seen =>
    if seen.contains dir then whichSearch sys cmd rest seen
    else if accessCheckF sys (pathJoin dir cmd) then
      some (pathJoin dir cmd)
    else whichSearch sys cmd rest (dir :: seen)

/-- `shutil.which(cmd, mode=os.F_OK, path=path)` on POSIX: a `cmd` with a
directory component is checked directly, an empty path string yields `None`,
and otherwise the path string is split on `os.pathsep` and searched in
order. -/
def whichF (sys : Sys) (cmd : String) (path : String) : Option String :=
  if dirname cmd != "" then
    if accessCheckF sys cmd then some cmd else none
  else if path == "" then none
  else whichSearch sys cmd (splitChar ':' path) []

/-- The `CommandMissing` exception of `src/argpoints/__init__.py`: a single
exception class carrying a message. -/
structure CommandMissing where
  msg : String
deriving DecidableEq

instance : DecidableEq (Except CommandMissing String) := fun a b =>
  match a, b with
  | .ok x, .ok y => decidable_of_iff (x = y) (by simp)
  | .ok _, .error _ => isFalse (by simp)
  | .error _, .ok _ => isFalse (by simp)
  | .error x, .error y => decidable_of_iff (x = y) (by simp)

/-- The `CommandMissing` value raised by `_command_abspath` when `which`
finds no match. -/
def notFoundErr (name subcommand_name : String) : CommandMissing :=
  ⟨pyCapitalize name ++ " command `" ++ subcommand_name ++ "` not found."⟩

/-- The `CommandMissing` value raised by `_command_abspath` when the found
match fails the `os.access(abs_path, os.X_OK)` check. -/
def notExecErr (name subcommand_name : String) : CommandMissing :=
  ⟨pyCapitalize name ++ " command `" ++ subcommand_name
    ++ "` is not executable."⟩

/-- `_command_abspath` from `src/argpoints/__init__.py`: join
`_path_with_self()` with `os.pathsep`, look up `f"{name}-{subcommand}"`
with `shutil.which(..., mode=os.F_OK)`, raise `CommandMissing` (not found)
on `None`, raise `CommandMissing` (not executable) when the result fails
`os.access(..., os.X_OK)`, and return the absolute path otherwise. -/
def _command_abspath (sys : Sys) (name subcommand : String) :
    Except CommandMissing String :=
  match whichF sys (name ++ "-" ++ subcommand)
      (joinChar ':' (_path_with_self sys)) with
  | none => .error (notFoundErr name (name ++ "-" ++ subcommand))
  | some abs_path =>
    if !(sys.accessX abs_path) then
      .error (notExecErr name (name ++ "-" ++ subcommand))
    else .ok abs_path

/-! ### Abbreviations used in claim statements -/

/-- The inherited part of the search path: `PATH` split on the path
separator, with `os.defpath` substituted when `PATH` is unset (or empty,
by Python's `or`). -/
def inheritedPath (sys : Sys) : List String :=
  splitChar ':'
    (match sys.pathEnv with
     | some p => if p == "" then sys.defpath else p
     | none => sys.defpath)

/-- The scripts-directory suffix of the search path: one entry when the
runtime reports a scripts directory, empty otherwise. -/
def scriptsSuffix (sys : Sys) : List String :=
  match sys.scriptsDir with
  | none => []
  | some bindir => [bindir]

/-- `sys` with directory `d` replaced by an empty, listable directory. -/
def emptyDir (sys : Sys) (d : String) : Sys :=
  { sys with listdir := fun x => if x == d then some [] else sys.listdir x }

/-! ### Concrete states used to instantiate the claims -/

/-- A state whose search path is the single directory `/bin`, holding the
raw candidate files of the catalog example: `name-foo`, `name-foo-bar`,
`name-baz-qux`. -/
def exampleSys : Sys where
  pathEnv := some "/bin"
  defpath := ""
  scriptsDir := none
  argv0 := ""
  islink := fun _ => false
  realpath := id
  isdir := fun _ => false
  accessX := fun _ => false
  pathExists := fun _ => false
  listdir := fun d =>
    if d == "/bin" then some ["name-foo", "name-foo-bar", "name-baz-qux"]
    else none

/-- A state with a single, existing but non-executable file
`/bin/name-run`. -/
def nonExecSys : Sys where
  pathEnv := some "/bin"
  defpath := ""
  scriptsDir := none
  argv0 := ""
  islink := fun _ => false
  realpath := id
  isdir := fun _ => false
  accessX := fun _ => false
  pathExists := fun p => p == "/bin/name-run"
  listdir := fun d => if d == "/bin" then some ["name-run"] else none

/-- A state for a hyphenated command name `a-b`: the single candidate file
is `/bin/a-b-c`, existing and executable. -/
def hyphenSys : Sys where
  pathEnv := some "/bin"
  defpath := ""
  scriptsDir := none
  argv0 := ""
  islink := fun _ => false
  realpath := id
  isdir := fun _ => false
  accessX := fun p => p == "/bin/a-b-c"
  pathExists := fun p => p == "/bin/a-b-c"
  listdir := fun d => if d == "/bin" then some ["a-b-c"] else none

/-- A state where both `/first/name-build` and `/second/name-build` exist
and are executable, with `/first` earlier on `PATH`. -/
def twoDirSys : Sys where
  pathEnv := some "/first:/second"
  defpath := ""
  scriptsDir := none
  argv0 := ""
  islink := fun _ => false
  realpath := id
  isdir := fun _ => false
  accessX := fun p => p == "/first/name-build" || p == "/second/name-build"
  pathExists := fun p => p == "/first/name-build" || p == "/second/name-build"
  listdir := fun _ => none

/-- A state where the earlier directory holds a non-executable
`/first/name-run` while the later directory holds an executable
`/second/name-run`. -/
def shadowExecSys : Sys where
  pathEnv := some "/first:/second"
  defpath := ""
  scriptsDir := none
  argv0 := ""
  islink := fun _ => false
  realpath := id
  isdir := fun _ => false
  accessX := fun p => p == "/second/name-run"
  pathExists := fun p => p == "/first/name-run" || p == "/second/name-run"
  listdir := fun _ => none

/-- A state whose executable `/app/name` is not a symlink, with an
executable `name-deploy` both in the self directory `/app` and in the
earlier-PATH directory `/bin`. -/
def selfDirSys : Sys where
  pathEnv := some "/bin"
  defpath := ""
  scriptsDir := some "/scripts"
  argv0 := "/app/name"
  islink := fun _ => false
  realpath := id
  isdir := fun d => d == "/app" || d == "/bin" || d == "/scripts"
  accessX := fun p => p == "/app/name" || p == "/app/name-deploy"
    || p == "/bin/name-deploy"
  pathExists := fun p => p == "/app/name" || p == "/app/name-deploy"
    || p == "/bin/name-deploy"
  listdir := fun _ => none

/-- A state whose executable `/links/name` is a symlink resolving to
`/real/name`, with both containing directories present and both program
files executable. -/
def symlinkSys : Sys where
  pathEnv := some "/usr/bin:/bin"
  defpath := ""
  scriptsDir := some "/scripts"
  argv0 := "/links/name"
  islink := fun p => p == "/links/name"
  realpath := fun p => if p == "/links/name" then "/real/name" else p
  isdir := fun d => d == "/links" || d == "/real"
  accessX := fun p => p == "/links/name" || p == "/real/name"
  pathExists := fun _ => false
  listdir := fun _ => none

/-- A state with one unreadable directory `/gone` on the path besides the
readable `/bin`. -/
def errDirSys : Sys where
  pathEnv := some "/bin:/gone"
  defpath := ""
  scriptsDir := none
  argv0 := ""
  islink := fun _ => false
  realpath := id
  isdir := fun _ => false
  accessX := fun _ => false
  pathExists := fun _ => false
  listdir := fun d => if d == "/bin" then some ["name-foo"] else none

/-- A state whose single directory `/bin` holds the degenerate candidate
file named exactly `name-`. -/
def trailingHyphenSys : Sys where
  pathEnv := some "/bin"
  defpath := ""
  scriptsDir := none
  argv0 := ""
  islink := fun _ => false
  realpath := id
  isdir := fun _ => false
  accessX := fun p => p == "/bin/name-"
  pathExists := fun p => p == "/bin/name-"
  listdir := fun d => if d == "/bin" then some ["name-"] else none

/-- A well-behaved state for the amended round-trip claim: every candidate
file in `/bin` exists and is executable. -/
def roundTripSys : Sys where
  pathEnv := some "/bin"
  defpath := ""
  scriptsDir := none
  argv0 := ""
  islink := fun _ => false
  realpath := id
  isdir := fun _ => false
  accessX := fun p => p == "/bin/name-foo" || p == "/bin/name-bar-baz"
  pathExists := fun p => p == "/bin/name-foo" || p == "/bin/name-bar-baz"
  listdir := fun d =>
    if d == "/bin" then some ["name-foo", "name-bar-baz"] else none

/-! ### Lemmas about the string order -/

theorem strMkData (s : String) : String.mk s.data = s := by
  cases s
  rfl

theorem str_append_empty (s : String) : s ++ "" = s := by
  have h : (s ++ "").data = s.data := by
    rw [String.data_append]
    exact List.append_nil s.data
  rw [← strMkData (s ++ ""), h, strMkData]

theorem lexLt_asymm : ∀ (a b : List Char),
    lexLt a b = true → lexLt b a = false
  | [], [] => by simp [lexLt]
  | [], _ :: _ => by simp [lexLt]
  | _ :: _, [] => by simp [lexLt]
  | x :: xs, y :: ys => by
    simp only [lexLt]
    by_cases hxy : x.toNat < y.toNat
    · have hyx : ¬y.toNat < x.toNat := by omega
      simp [hxy, hyx]
    · by_cases hyx : y.toNat < x.toNat
      · simp [hxy, hyx]
      · simp only [hxy, hyx, if_false]
        exact lexLt_asymm xs ys

theorem lexLt_false_trans : ∀ (a b c : List Char),
    lexLt a b = false → lexLt b c = false → lexLt a c = false
  | [], b, c => by
    intro h1 h2
    cases b with
    | nil => exact h2
    | cons y ys => simp [lexLt] at h1
  | _ :: _, b, c => by
    intro h1 h2
    cases b with
    | nil =>
      cases c with
      | nil => simp [lexLt]
      | cons z zs => simp [lexLt] at h2
    | cons y ys =>
      cases c with
      | nil => simp [lexLt]
      | cons z zs =>
        rename_i x xs
        simp only [lexLt] at h1 h2 ⊢
        by_cases hxy : x.toNat < y.toNat
        · simp [hxy] at h1
        · by_cases hyz : y.toNat < z.toNat
          · simp [hyz] at h2
          · by_cases hxz : x.toNat < z.toNat
            · omega
            · simp only [hxz, if_false]
              by_cases hzx : z.toNat < x.toNat
              · simp [hzx]
              · have hyx : ¬y.toNat < x.toNat := by omega
                have hzy : ¬z.toNat < y.toNat := by omega
                simp only [hxy, hyx, if_false] at h1
                simp only [hyz, hzy, if_false] at h2
                simp only [hzx, if_false]
                exact lexLt_false_trans _ ys zs h1 h2

instance : IsTotal String pySortRel where
  total a b := by
    unfold pySortRel pyLe
    simp only [Bool.not_eq_true']
    by_cases h : lexLt b.data a.data = true
    · exact Or.inr (lexLt_asymm _ _ h)
    · exact Or.inl (by simpa using h)

instance : IsTrans String pySortRel where
  trans a b c hab hbc := by
    unfold pySortRel pyLe at hab hbc ⊢
    simp only [Bool.not_eq_true'] at hab hbc ⊢
    exact lexLt_false_trans c.data b.data a.data hbc hab

/-! ### Lemmas about split and join -/

theorem splitCharAux_ne_nil (sep : Char) :
    ∀ (l acc : List Char), splitCharAux sep l acc ≠ []
  | [], _ => by simp [splitCharAux]
  | c :: cs, acc => by
    simp only [splitCharAux]
    split
    · simp
    · exact splitCharAux_ne_nil sep cs (c :: acc)

theorem splitChar_ne_nil (sep : Char) (s : String) : splitChar sep s ≠ [] :=
  splitCharAux_ne_nil sep s.data []

theorem joinChar_cons_of_ne_nil (sep : Char) (s : String) (l : List String)
    (h : l ≠ []) :
    joinChar sep (s :: l) = s ++ String.singleton sep ++ joinChar sep l := by
  match l with
  | [] => exact absurd rfl h
  | t :: ts => rfl

theorem joinChar_splitCharAux (sep : Char) :
    ∀ (l acc : List Char),
      joinChar sep (splitCharAux sep l acc) = String.mk (acc.reverse ++ l)
  | [], acc => by simp [splitCharAux, joinChar]
  | c :: cs, acc => by
    simp only [splitCharAux]
    split
    · rename_i hc
      have hsep : c = sep := by simpa using hc
      rw [joinChar_cons_of_ne_nil sep _ _ (splitCharAux_ne_nil sep cs []),
        joinChar_splitCharAux sep cs []]
      show String.mk (acc.reverse ++ [sep] ++ ([] ++ cs)) = _
      simp [hsep, List.append_assoc]
    · rw [joinChar_splitCharAux sep cs (c :: acc)]
      simp [List.append_assoc]

theorem joinChar_splitChar (sep : Char) (s : String) :
    joinChar sep (splitChar sep s) = s := by
  rw [splitChar, joinChar_splitCharAux]
  simp [strMkData]

theorem splitCharAux_no_sep (sep : Char) :
    ∀ (l acc : List Char), (∀ c ∈ l, ¬c = sep) →
      splitCharAux sep l acc = [String.mk (acc.reverse ++ l)]
  | [], acc => by simp [splitCharAux]
  | c :: cs, acc => by
    intro h
    have hc : (c == sep) = false := by
      simpa using h c (by simp)
    simp only [splitCharAux, hc, Bool.false_eq_true, if_false]
    rw [splitCharAux_no_sep sep cs (c :: acc) (fun x hx => h x (by simp [hx]))]
    simp [List.append_assoc]

theorem splitCharAux_append_sep (sep : Char) :
    ∀ (l : List Char) (r acc : List Char), (∀ c ∈ l, ¬c = sep) →
      splitCharAux sep (l ++ sep :: r) acc =
        String.mk (acc.reverse ++ l) :: splitCharAux sep r []
  | [], r, acc => by simp [splitCharAux]
  | c :: cs, r, acc => by
    intro h
    have hc : (c == sep) = false := by
      simpa using h c (by simp)
    simp only [List.cons_append, splitCharAux, hc, Bool.false_eq_true,
      if_false]
    show splitCharAux sep (cs ++ sep :: r) (c :: acc) = _
    rw [splitCharAux_append_sep sep cs r (c :: acc)
      (fun x hx => h x (by simp [hx]))]
    simp [List.append_assoc]

theorem splitChar_single (sep : Char) (s : String)
    (h : ∀ c ∈ s.data, ¬c = sep) : splitChar sep s = [s] := by
  rw [splitChar, splitCharAux_no_sep sep s.data [] h]
  simp [strMkData]

theorem splitChar_sep_append (sep : Char) (a b : String)
    (h : ∀ c ∈ a.data, ¬c = sep) :
    splitChar sep (a ++ String.singleton sep ++ b) = a :: splitChar sep b := by
  have hdata : (a ++ String.singleton sep ++ b).data =
      a.data ++ sep :: b.data := by
    simp [String.data_append, String.singleton]
  rw [splitChar, hdata, splitCharAux_append_sep sep a.data b.data [] h]
  simp [strMkData, splitChar]

theorem splitChar_joinChar (sep : Char) :
    ∀ (l : List String), l ≠ [] → (∀ s ∈ l, ∀ c ∈ s.data, ¬c = sep) →
      splitChar sep (joinChar sep l) = l
  | [], h, _ => absurd rfl h
  | [s], _, h => by
    simpa [joinChar] using splitChar_single sep s (h s (by simp))
  | s :: t :: ts, _, h => by
    rw [joinChar_cons_of_ne_nil sep s (t :: ts) (by simp),
      splitChar_sep_append sep s _ (h s (by simp)),
      splitChar_joinChar sep (t :: ts) (by simp)
        (fun x hx => h x (by simp at hx ⊢; tauto))]

/-! ### Lemmas about startswith and dirname -/

theorem listStarts_iff : ∀ (p s : List Char),
    listStarts p s = true ↔ ∃ r, s = p ++ r
  | [], s => by simp [listStarts]
  | p :: ps, [] => by simp [listStarts]
  | p :: ps, c :: cs => by
    simp only [listStarts, Bool.and_eq_true, beq_iff_eq, List.cons_append,
      listStarts_iff ps cs]
    constructor
    · rintro ⟨rfl, r, rfl⟩
      exact ⟨r, rfl⟩
    · rintro ⟨r, hr⟩
      simp only [List.cons.injEq] at hr
      exact ⟨hr.1.symm, r, hr.2⟩

theorem strStarts_iff (s p : String) :
    strStarts s p = true ↔ ∃ r : String, s = p ++ r := by
  rw [strStarts, listStarts_iff]
  constructor
  · rintro ⟨r, hr⟩
    refine ⟨String.mk r, ?_⟩
    have : s = String.mk s.data := (strMkData s).symm
    rw [this, hr]
    rfl
  · rintro ⟨r, rfl⟩
    exact ⟨r.data, String.data_append p r⟩

/-! ### Lemmas about the which search -/

theorem whichSearch_eq_none_iff (sys : Sys) (cmd : String) :
    ∀ (dirs seen : List String),
      whichSearch sys cmd dirs seen = none ↔
        ∀ d ∈ dirs, d ∉ seen → accessCheckF sys (pathJoin d cmd) = false
  | [], seen => by simp [whichSearch]
  | dir :: rest, seen => by
    simp only [whichSearch]
    by_cases hseen : List.contains seen dir = true
    · rw [if_pos hseen, whichSearch_eq_none_iff sys cmd rest seen]
      have hmem : dir ∈ seen := List.elem_iff.mp hseen
      constructor
      · intro h d hd hds
        rcases List.mem_cons.mp hd with rfl | hd'
        · exact absurd hmem hds
        · exact h d hd' hds
      · intro h d hd hds
        exact h d (List.mem_cons_of_mem _ hd) hds
    · rw [if_neg hseen]
      have hnmem : dir ∉ seen := fun hc => hseen (List.elem_iff.mpr hc)
      by_cases hacc : accessCheckF sys (pathJoin dir cmd) = true
      · rw [if_pos hacc]
        simp only [reduceCtorEq, false_iff, not_forall]
        exact ⟨dir, List.mem_cons_self dir rest, hnmem, by simp [hacc]⟩
      · rw [if_neg hacc, whichSearch_eq_none_iff sys cmd rest (dir :: seen)]
        constructor
        · intro h d hd hds
          rcases List.mem_cons.mp hd with rfl | hd'
          · simpa using hacc
          · by_cases hdd : d = dir
            · subst hdd
              simpa using hacc
            · exact h d hd' (by simp [hds, hdd])
        · intro h d hd hds
          exact h d (List.mem_cons_of_mem _ hd)
            (fun hc => hds (List.mem_cons_of_mem _ hc))

theorem whichSearch_eq_some (sys : Sys) (cmd : String) :
    ∀ (dirs seen : List String) (p : String),
      whichSearch sys cmd dirs seen = some p →
        ∃ d ∈ dirs, p = pathJoin d cmd ∧ accessCheckF sys p = true
  | [], _, p => by simp [whichSearch]
  | dir :: rest, seen, p => by
    simp only [whichSearch]
    by_cases hseen : List.contains seen dir = true
    · rw [if_pos hseen]
      intro h
      obtain ⟨d, hd, hp⟩ := whichSearch_eq_some sys cmd rest seen p h
      exact ⟨d, List.mem_cons_of_mem _ hd, hp⟩
    · rw [if_neg hseen]
      by_cases hacc : accessCheckF sys (pathJoin dir cmd) = true
      · rw [if_pos hacc]
        intro h
        obtain rfl : pathJoin dir cmd = p := by simpa using h
        exact ⟨dir, List.mem_cons_self _ _, rfl, hacc⟩
      · rw [if_neg hacc]
        intro h
        obtain ⟨d, hd, hp⟩ := whichSearch_eq_some sys cmd rest (dir :: seen) p h
        exact ⟨d, List.mem_cons_of_mem _ hd, hp⟩

theorem whichSearch_first (sys : Sys) (cmd : String) :
    ∀ (pre : List String) (d : String) (post seen : List String),
      (∀ s ∈ seen, accessCheckF sys (pathJoin s cmd) = false) →
      (∀ x ∈ pre, accessCheckF sys (pathJoin x cmd) = false) →
      accessCheckF sys (pathJoin d cmd) = true →
      whichSearch sys cmd (pre ++ d :: post) seen = some (pathJoin d cmd)
  | [], d, post, seen => by
    intro hseen _ hacc
    simp only [List.nil_append, whichSearch]
    have hns : List.contains seen d = false := by
      rw [Bool.eq_false_iff]
      intro hc
      exact absurd hacc (by simp [hseen d (List.elem_iff.mp hc)])
    rw [hns]
    simp [hacc]
  | x :: xs, d, post, seen => by
    intro hseen hpre hacc
    have hx : accessCheckF sys (pathJoin x cmd) = false :=
      hpre x (List.mem_cons_self _ _)
    simp only [List.cons_append, whichSearch]
    by_cases hseenx : List.contains seen x = true
    · rw [if_pos hseenx]
      exact whichSearch_first sys cmd xs d post seen hseen
        (fun y hy => hpre y (List.mem_cons_of_mem _ hy)) hacc
    · rw [if_neg hseenx, if_neg (by simp [hx])]
      exact whichSearch_first sys cmd xs d post (x :: seen)
        (fun s hs => by
          rcases List.mem_cons.mp hs with rfl | hs'
          · exact hx
          · exact hseen s hs')
        (fun y hy => hpre y (List.mem_cons_of_mem _ hy)) hacc

/-! ### Lemmas about startswith and dirname -/

theorem dirname_no_slash (s : String) (h : ∀ c ∈ s.data, ¬c = '/') :
    dirname s = "" := by
  unfold dirname
  have htw : s.data.reverse.takeWhile (fun c => !(c == '/')) =
      s.data.reverse := by
    apply List.takeWhile_eq_self_iff.mpr
    intro c hc
    simpa using h c (List.mem_reverse.mp hc)
  simp [htw]

/-! ### Lemmas about discovery and the search path -/

theorem notShadowed_iff (raw : List (List String)) (t : List String) :
    notShadowed raw t = true ↔
      ¬∃ i, 1 ≤ i ∧ i < t.length ∧ t.take i ∈ raw := by
  unfold notShadowed
  rw [Bool.not_eq_true', List.any_eq_false]
  constructor
  · rintro h ⟨i, h1, h2, h3⟩
    have hi : i ∈ List.range' 1 (t.length - 1) := by
      rw [List.mem_range'_1]
      omega
    exact h i hi (List.elem_iff.mpr h3)
  · intro h i hi hc
    rw [List.mem_range'_1] at hi
    exact h ⟨i, hi.1, by omega, List.elem_iff.mp hc⟩

theorem mem_list_subcommands (sys : Sys) (cn s : String) :
    s ∈ list_subcommands sys cn ↔
      ∃ t, t ∈ subcommandTuples sys cn ∧
        notShadowed (subcommandTuples sys cn) t = true ∧
        joinChar '-' t = s := by
  unfold list_subcommands
  rw [(List.perm_insertionSort pySortRel _).mem_iff, List.mem_dedup,
    List.mem_map]
  constructor
  · rintro ⟨t, ht, rfl⟩
    rw [List.mem_filter] at ht
    exact ⟨t, ht.1, ht.2, rfl⟩
  · rintro ⟨t, h1, h2, rfl⟩
    exact ⟨t, List.mem_filter.mpr ⟨h1, h2⟩, rfl⟩

theorem mem_subcommandTuples (sys : Sys) (cn : String) (t : List String) :
    t ∈ subcommandTuples sys cn ↔
      ∃ d ∈ _path_with_self sys, ∃ names, sys.listdir d = some names ∧
        ∃ f ∈ names, strStarts f (cn ++ "-") = true ∧
          (splitChar '-' f).drop 1 = t := by
  unfold subcommandTuples
  rw [List.mem_flatMap]
  constructor
  · rintro ⟨d, hd, ht⟩
    refine ⟨d, hd, ?_⟩
    unfold dirTuples at ht
    cases hld : sys.listdir d with
    | none => rw [hld] at ht; simp at ht
    | some names =>
      rw [hld] at ht
      rw [List.mem_map] at ht
      obtain ⟨f, hf, rfl⟩ := ht
      rw [List.mem_filter] at hf
      exact ⟨names, rfl, f, hf.1, hf.2, rfl⟩
  · rintro ⟨d, hd, names, hld, f, hf, hsw, rfl⟩
    refine ⟨d, hd, ?_⟩
    unfold dirTuples
    rw [hld]
    exact List.mem_map.mpr ⟨f, List.mem_filter.mpr ⟨hf, hsw⟩, rfl⟩

theorem foldl_insert_ne_nil (sys : Sys) :
    ∀ (scripts pl : List String), pl ≠ [] →
      scripts.foldl
        (fun pl script =>
          if sys.isdir (dirname script) && sys.accessX script then
            dirname script :: pl
          else pl)
        pl ≠ []
  | [], _, h => h
  | _ :: xs, pl, h => by
    simp only [List.foldl_cons]
    split
    · exact foldl_insert_ne_nil sys xs _ (by simp)
    · exact foldl_insert_ne_nil sys xs _ h

theorem _path_with_self_ne_nil (sys : Sys) : _path_with_self sys ≠ [] := by
  unfold _path_with_self
  apply foldl_insert_ne_nil
  cases sys.scriptsDir with
  | none => exact splitChar_ne_nil ':' _
  | some bindir => simp

theorem splitChar_joinChar_path (sys : Sys)
    (h : ∀ d ∈ _path_with_self sys, ∀ c ∈ d.data, ¬c = ':') :
    splitChar ':' (joinChar ':' (_path_with_self sys)) =
      _path_with_self sys :=
  splitChar_joinChar ':' (_path_with_self sys) (_path_with_self_ne_nil sys) h

theorem _path_with_self_not_link (sys : Sys)
    (h : sys.islink sys.argv0 = false) :
    _path_with_self sys =
      (if sys.isdir (dirname sys.argv0) && sys.accessX sys.argv0 then
        [dirname sys.argv0] else []) ++
        (inheritedPath sys ++ scriptsSuffix sys) := by
  unfold _path_with_self inheritedPath scriptsSuffix
  simp only [h, Bool.false_eq_true, if_false, List.foldl_cons,
    List.foldl_nil]
  cases sys.scriptsDir <;> split <;> simp

theorem _path_with_self_link (sys : Sys)
    (h : sys.islink sys.argv0 = true)
    (h1 : sys.isdir (dirname sys.argv0) = true)
    (h2 : sys.accessX sys.argv0 = true)
    (h3 : sys.isdir (dirname (sys.realpath sys.argv0)) = true)
    (h4 : sys.accessX (sys.realpath sys.argv0) = true) :
    _path_with_self sys =
      dirname (sys.realpath sys.argv0) :: dirname sys.argv0 ::
        (inheritedPath sys ++ scriptsSuffix sys) := by
  unfold _path_with_self inheritedPath scriptsSuffix
  simp only [h, if_true, List.foldl_cons, List.foldl_nil, h1, h2, h3, h4,
    Bool.and_self, if_pos]
  cases sys.scriptsDir <;> simp

/-! ### Lemmas about resolution -/

theorem notFoundErr_ne_notExecErr (name cmd : String) :
    notFoundErr name cmd ≠ notExecErr name cmd := by
  intro h
  have hlen : (notFoundErr name cmd).msg.length =
      (notExecErr name cmd).msg.length := by rw [h]
  have e1 : ("` not found." : String).length = 12 := by decide
  have e2 : ("` is not executable." : String).length = 20 := by decide
  simp only [notFoundErr, notExecErr, String.length_append] at hlen
  omega

theorem whichF_of_forall_false (sys : Sys) (cmd sp : String)
    (hdn : dirname cmd = "") (hne : sp ≠ "")
    (hall : ∀ d ∈ splitChar ':' sp,
      accessCheckF sys (pathJoin d cmd) = false) :
    whichF sys cmd sp = none := by
  unfold whichF
  rw [if_neg (by simp [hdn]), if_neg (by simp [hne])]
  exact (whichSearch_eq_none_iff sys cmd (splitChar ':' sp) []).mpr
    (fun d hd _ => hall d hd)

theorem whichF_eq_whichSearch (sys : Sys) (cmd sp : String)
    (hdn : dirname cmd = "") (hne : sp ≠ "") :
    whichF sys cmd sp = whichSearch sys cmd (splitChar ':' sp) [] := by
  unfold whichF
  rw [if_neg (by simp [hdn]), if_neg (by simp [hne])]

/-! ### The claims -/

/-- Claim C1: the catalog filter excludes a raw tuple exactly when some
strict non-empty leading-segment sequence of it is also in the raw
discovered set; consequently a string is listed exactly when it is the
hyphen-join of a raw tuple with no such strict prefix in the raw set; and
on the raw names `name-foo`, `name-foo-bar`, `name-baz-qux` the catalog for
`name` is exactly `baz-qux` and `foo` (with `foo-bar` shadowed by `foo`,
and `baz-qux` retained because its parent `baz` was not discovered). -/
theorem claim_C1 :
    (∀ (raw : List (List String)) (t : List String),
      notShadowed raw t = false ↔
        ∃ i, 1 ≤ i ∧ i < t.length ∧ t.take i ∈ raw) ∧
    (∀ (sys : Sys) (cn s : String),
      s ∈ list_subcommands sys cn ↔
        ∃ t, t ∈ subcommandTuples sys cn ∧
          ¬(∃ i, 1 ≤ i ∧ i < t.length ∧
              t.take i ∈ subcommandTuples sys cn) ∧
          joinChar '-' t = s) ∧
    list_subcommands exampleSys "name" = ["baz-qux", "foo"] := by
  refine ⟨?_, ?_, by decide⟩
  · intro raw t
    rw [Bool.eq_false_iff, ne_eq, notShadowed_iff, not_not]
  · intro sys cn s
    simp only [mem_list_subcommands, notShadowed_iff]

/-- Claim C2: with the command name and subcommand joining into a plain
file name and a non-empty search-path string, resolution fails with the
not-found `CommandMissing` value when no (non-directory) file named
`name-subcommand` is present in any directory of the resolved search path,
fails with the not-executable `CommandMissing` value when such a file is
present somewhere but every present match lacks execute permission, the
two failure values are distinct, and a present match never produces the
not-found failure. -/
theorem claim_C2 (sys : Sys) (name sub : String)
    (hdn : dirname (name ++ "-" ++ sub) = "")
    (hne : joinChar ':' (_path_with_self sys) ≠ "") :
    ((∀ d ∈ splitChar ':' (joinChar ':' (_path_with_self sys)),
        accessCheckF sys (pathJoin d (name ++ "-" ++ sub)) = false) →
      _command_abspath sys name sub =
        .error (notFoundErr name (name ++ "-" ++ sub))) ∧
    ((∃ d ∈ splitChar ':' (joinChar ':' (_path_with_self sys)),
        accessCheckF sys (pathJoin d (name ++ "-" ++ sub)) = true) →
      (∀ d ∈ splitChar ':' (joinChar ':' (_path_with_self sys)),
        accessCheckF sys (pathJoin d (name ++ "-" ++ sub)) = true →
          sys.accessX (pathJoin d (name ++ "-" ++ sub)) = false) →
      _command_abspath sys name sub =
        .error (notExecErr name (name ++ "-" ++ sub))) ∧
    notFoundErr name (name ++ "-" ++ sub) ≠
      notExecErr name (name ++ "-" ++ sub) ∧
    ((∃ d ∈ splitChar ':' (joinChar ':' (_path_with_self sys)),
        accessCheckF sys (pathJoin d (name ++ "-" ++ sub)) = true) →
      _command_abspath sys name sub ≠
        .error (notFoundErr name (name ++ "-" ++ sub))) := by
  refine ⟨?_, ?_, notFoundErr_ne_notExecErr _ _, ?_⟩
  · intro hall
    unfold _command_abspath
    rw [whichF_of_forall_false sys _ _ hdn hne hall]
  · rintro ⟨d, hd, hacc⟩ hallx
    have hw := whichF_eq_whichSearch sys (name ++ "-" ++ sub) _ hdn hne
    cases hws : whichSearch sys (name ++ "-" ++ sub)
        (splitChar ':' (joinChar ':' (_path_with_self sys))) [] with
    | none =>
      exact absurd hacc (by
        simp [(whichSearch_eq_none_iff sys _ _ _).mp hws d hd (by simp)])
    | some p =>
      obtain ⟨d', hd', rfl, haccp⟩ := whichSearch_eq_some sys _ _ _ p hws
      have hx := hallx d' hd' haccp
      unfold _command_abspath
      rw [hw, hws]
      simp [hx]
  · rintro ⟨d, hd, hacc⟩ heq
    have hw := whichF_eq_whichSearch sys (name ++ "-" ++ sub) _ hdn hne
    cases hws : whichSearch sys (name ++ "-" ++ sub)
        (splitChar ':' (joinChar ':' (_path_with_self sys))) [] with
    | none =>
      exact absurd hacc (by
        simp [(whichSearch_eq_none_iff sys _ _ _).mp hws d hd (by simp)])
    | some p =>
      unfold _command_abspath at heq
      rw [hw, hws] at heq
      by_cases hxp : sys.accessX p = true
      · simp [hxp] at heq
      · simp only [Bool.not_eq_true] at hxp
        simp only [hxp, Bool.not_false, if_true, Except.error.injEq] at heq
        exact notFoundErr_ne_notExecErr _ _ heq.symm

/-- Claim C2, instantiated: on a state whose path holds only the existing
but non-executable file `/bin/name-run`, resolving the missing subcommand
`miss` yields the not-found failure and resolving `run` yields the
not-executable failure. -/
theorem claim_C2_witness :
    _command_abspath nonExecSys "name" "miss" =
      .error (notFoundErr "name" "name-miss") ∧
    _command_abspath nonExecSys "name" "run" =
      .error (notExecErr "name" "name-run") :=
  ⟨(claim_C2 nonExecSys "name" "miss" (by decide) (by decide)).1 (by decide),
   (claim_C2 nonExecSys "name" "run" (by decide) (by decide)).2.1
     (by decide) (by decide)⟩

/-- Claim C4: when the directories of the resolved search path split as
`pre ++ d :: post` with no present match in `pre`, a present and executable
match in `d`, and a present match in some later directory of `post`,
resolution returns the path from the earlier directory `d`. -/
theorem claim_C4 (sys : Sys) (name sub : String) (pre : List String)
    (d : String) (post : List String)
    (hdn : dirname (name ++ "-" ++ sub) = "")
    (hne : joinChar ':' (_path_with_self sys) ≠ "")
    (hsplit : splitChar ':' (joinChar ':' (_path_with_self sys)) =
      pre ++ d :: post)
    (hpre : ∀ x ∈ pre,
      accessCheckF sys (pathJoin x (name ++ "-" ++ sub)) = false)
    (hacc : accessCheckF sys (pathJoin d (name ++ "-" ++ sub)) = true)
    (hexec : sys.accessX (pathJoin d (name ++ "-" ++ sub)) = true)
    (_hlater : ∃ d2 ∈ post,
      accessCheckF sys (pathJoin d2 (name ++ "-" ++ sub)) = true) :
    _command_abspath sys name sub =
      .ok (pathJoin d (name ++ "-" ++ sub)) := by
  unfold _command_abspath
  rw [whichF_eq_whichSearch sys _ _ hdn hne, hsplit,
    whichSearch_first sys _ pre d post [] (by simp) hpre hacc]
  simp [hexec]

/-- Claim C4, instantiated: with executable `name-build` present in both
`/first` and `/second` and `PATH` listing `/first` earlier, resolution
returns `/first/name-build`. -/
theorem claim_C4_witness :
    _command_abspath twoDirSys "name" "build" = .ok "/first/name-build" :=
  claim_C4 twoDirSys "name" "build" [] "/first" ["/second"] (by decide)
    (by decide) (by decide) (by decide) (by decide) (by decide)
    ⟨"/second", by decide⟩

/-- Claim C9: the which search selects the first directory in path order
whose candidate merely exists (mode `F_OK`) before the execute-permission
check, so when the earliest present match is not executable, resolution
fails with the not-executable failure even though `post` is arbitrary and
may hold an executable file of the same name in a later directory. -/
theorem claim_C9 (sys : Sys) (name sub : String) (pre : List String)
    (d : String) (post : List String)
    (hdn : dirname (name ++ "-" ++ sub) = "")
    (hne : joinChar ':' (_path_with_self sys) ≠ "")
    (hsplit : splitChar ':' (joinChar ':' (_path_with_self sys)) =
      pre ++ d :: post)
    (hpre : ∀ x ∈ pre,
      accessCheckF sys (pathJoin x (name ++ "-" ++ sub)) = false)
    (hacc : accessCheckF sys (pathJoin d (name ++ "-" ++ sub)) = true)
    (hnoexec : sys.accessX (pathJoin d (name ++ "-" ++ sub)) = false)
    (_hlater : ∃ d2 ∈ post,
      accessCheckF sys (pathJoin d2 (name ++ "-" ++ sub)) = true ∧
        sys.accessX (pathJoin d2 (name ++ "-" ++ sub)) = true) :
    _command_abspath sys name sub =
      .error (notExecErr name (name ++ "-" ++ sub)) := by
  unfold _command_abspath
  rw [whichF_eq_whichSearch sys _ _ hdn hne, hsplit,
    whichSearch_first sys _ pre d post [] (by simp) hpre hacc]
  simp [hnoexec]

/-- Claim C9, instantiated: with a non-executable `/first/name-run` and an
executable `/second/name-run`, resolution fails with the not-executable
failure. -/
theorem claim_C9_witness :
    _command_abspath shadowExecSys "name" "run" =
      .error (notExecErr "name" "name-run") :=
  claim_C9 shadowExecSys "name" "run" [] "/first" ["/second"] (by decide)
    (by decide) (by decide) (by decide) (by decide) (by decide)
    ⟨"/second", by decide⟩

/-- Claim C5: when the running executable is not a symlink, the resolved
search path is the inherited search path (with the platform default
substituted for an unset `PATH`) followed by the scripts directory when the
runtime reports one (and nothing otherwise), with the executable's own
directory inserted at the front exactly when that directory exists and the
program file is executable; and in that front-inserted case an existing
executable self-directory copy of a subcommand is the resolution result,
whatever the rest of the path holds. -/
theorem claim_C5 (sys : Sys) (name sub : String)
    (hlink : sys.islink sys.argv0 = false) :
    (_path_with_self sys =
      (if sys.isdir (dirname sys.argv0) && sys.accessX sys.argv0 then
        [dirname sys.argv0] else []) ++
        (inheritedPath sys ++ scriptsSuffix sys)) ∧
    (sys.isdir (dirname sys.argv0) = true →
      sys.accessX sys.argv0 = true →
      (∀ d ∈ _path_with_self sys, ∀ c ∈ d.data, ¬c = ':') →
      joinChar ':' (_path_with_self sys) ≠ "" →
      dirname (name ++ "-" ++ sub) = "" →
      accessCheckF sys
        (pathJoin (dirname sys.argv0) (name ++ "-" ++ sub)) = true →
      sys.accessX
        (pathJoin (dirname sys.argv0) (name ++ "-" ++ sub)) = true →
      _command_abspath sys name sub =
        .ok (pathJoin (dirname sys.argv0) (name ++ "-" ++ sub))) := by
  have hpath := _path_with_self_not_link sys hlink
  refine ⟨hpath, ?_⟩
  intro hd hx hnc hne hdn hacc hX
  have hpath2 : _path_with_self sys =
      [] ++ dirname sys.argv0 :: (inheritedPath sys ++ scriptsSuffix sys) := by
    rw [hpath, hd, hx]
    simp
  unfold _command_abspath
  rw [whichF_eq_whichSearch sys _ _ hdn hne, splitChar_joinChar_path sys hnc,
    hpath2, whichSearch_first sys _ [] _ _ [] (by simp) (by simp) hacc]
  simp [hX]

/-- Claim C5, instantiated: with a non-symlink `/app/name`, `PATH`
`/bin`, and a scripts directory `/scripts`, the resolved path is
`/app`, `/bin`, `/scripts`; and `name-deploy`, executable both in the
self directory `/app` and in the earlier-PATH directory `/bin`, resolves
to the self-directory copy `/app/name-deploy`. -/
theorem claim_C5_witness :
    _path_with_self selfDirSys = ["/app", "/bin", "/scripts"] ∧
    _command_abspath selfDirSys "name" "deploy" = .ok "/app/name-deploy" := by
  have h := claim_C5 selfDirSys "name" "deploy" (by decide)
  exact ⟨h.1.trans (by decide),
    (h.2 (by decide) (by decide) (by decide) (by decide) (by decide)
      (by decide) (by decide)).trans (by decide)⟩

/-- Claim C10: when the running executable is a symlink (and both its own
directory and the resolved real path's directory pass the existence and
executability checks), both directories are prepended: the loop inserts the
symlink's directory first and the real path's directory last, so the
resolved real path's directory ends up strictly in front of the symlink's
own directory. -/
theorem claim_C10 (sys : Sys)
    (h : sys.islink sys.argv0 = true)
    (h1 : sys.isdir (dirname sys.argv0) = true)
    (h2 : sys.accessX sys.argv0 = true)
    (h3 : sys.isdir (dirname (sys.realpath sys.argv0)) = true)
    (h4 : sys.accessX (sys.realpath sys.argv0) = true) :
    _path_with_self sys =
      dirname (sys.realpath sys.argv0) :: dirname sys.argv0 ::
        (inheritedPath sys ++ scriptsSuffix sys) := by
  unfold _path_with_self inheritedPath scriptsSuffix
  simp only [h, if_true, List.foldl_cons, List.foldl_nil, h1, h2, h3, h4,
    Bool.and_self, if_pos]
  cases sys.scriptsDir <;> simp

/-- Claim C10, instantiated: for the symlink `/links/name` resolving to
`/real/name`, the resolved search path starts with `/real` before
`/links`, ahead of the inherited entries and the scripts directory. -/
theorem claim_C10_witness :
    _path_with_self symlinkSys =
      ["/real", "/links", "/usr/bin", "/bin", "/scripts"] :=
  (claim_C10 symlinkSys (by decide) (by decide) (by decide) (by decide)
    (by decide)).trans (by decide)

/-- Claim C6: a directory whose entries cannot be enumerated contributes
zero candidate tuples, and the whole catalog equals the one computed with
that directory replaced by an empty readable directory — enumeration
failures are skipped silently and only shrink the result (the embedding of
`list_subcommands` is a total function: the `OSError` of `os.listdir` is
the only fallible operation it performs and is caught and skipped). -/
theorem claim_C6 (sys : Sys) (cn d : String)
    (h : sys.listdir d = none) :
    dirTuples sys cn d = [] ∧
    list_subcommands sys cn = list_subcommands (emptyDir sys d) cn := by
  constructor
  · unfold dirTuples
    rw [h]
  · have hpath : _path_with_self (emptyDir sys d) = _path_with_self sys :=
      rfl
    have htup : subcommandTuples (emptyDir sys d) cn =
        subcommandTuples sys cn := by
      unfold subcommandTuples
      rw [hpath]
      apply List.flatMap_congr
      intro x hx
      unfold dirTuples emptyDir
      by_cases hxd : x = d
      · subst hxd
        rw [h]
        simp
      · simp only [beq_eq_false_iff_ne, ne_eq]
        rw [if_neg (by simp [hxd])]
    unfold list_subcommands
    rw [htup]

/-- Claim C6, instantiated: with `/gone` unreadable on the path, it
contributes nothing and the catalog equals the catalog with `/gone`
emptied. -/
theorem claim_C6_witness :
    dirTuples errDirSys "name" "/gone" = [] ∧
    list_subcommands errDirSys "name" =
      list_subcommands (emptyDir errDirSys "/gone") "name" :=
  claim_C6 errDirSys "name" "/gone" (by decide)

/-- Claim C7: the catalog is a pure function of the state (two calls on an
unchanged state are the same value), and its output is sorted in ascending
Python string order and duplicate-free. -/
theorem claim_C7 (sys : Sys) (cn : String) :
    list_subcommands sys cn = list_subcommands sys cn ∧
    List.Sorted pySortRel (list_subcommands sys cn) ∧
    (list_subcommands sys cn).Nodup := by
  refine ⟨rfl, ?_, ?_⟩
  · unfold list_subcommands
    exact List.sorted_insertionSort pySortRel _
  · unfold list_subcommands
    exact ((List.perm_insertionSort pySortRel _).nodup_iff).mpr
      (List.nodup_dedup _)

/-- Claim C8: a candidate file named exactly the command name followed by a
trailing hyphen yields the tuple of one empty segment, which is never
shadowed (its length is 1, so the shadowing scan ranges over nothing) and
appears in the catalog as the empty-string subcommand name (for a command
name that itself contains no hyphen). -/
theorem claim_C8 (sys : Sys) (cn d : String) (names : List String)
    (hd : d ∈ _path_with_self sys)
    (hld : sys.listdir d = some names)
    (hmem : (cn ++ "-") ∈ names)
    (hcn : ∀ c ∈ cn.data, ¬c = '-') :
    [""] ∈ subcommandTuples sys cn ∧
    notShadowed (subcommandTuples sys cn) [""] = true ∧
    "" ∈ list_subcommands sys cn := by
  have hsplit : (splitChar '-' (cn ++ "-")).drop 1 = [""] := by
    have hdata : (cn ++ "-").data = cn.data ++ '-' :: [] := by
      rw [String.data_append]
    rw [splitChar, hdata, splitCharAux_append_sep '-' cn.data [] [] hcn]
    rfl
  have hstart : strStarts (cn ++ "-") (cn ++ "-") = true :=
    (strStarts_iff _ _).mpr ⟨"", (str_append_empty (cn ++ "-")).symm⟩
  have htup : [""] ∈ subcommandTuples sys cn :=
    (mem_subcommandTuples sys cn [""]).mpr
      ⟨d, hd, names, hld, cn ++ "-", hmem, hstart, hsplit⟩
  have hns : notShadowed (subcommandTuples sys cn) [""] = true := rfl
  exact ⟨htup, hns, (mem_list_subcommands sys cn "").mpr ⟨[""], htup, hns, rfl⟩⟩

/-- Claim C8, instantiated: the file `/bin/name-` makes the empty string a
listed subcommand of `name`. -/
theorem claim_C8_witness :
    [""] ∈ subcommandTuples trailingHyphenSys "name" ∧
    notShadowed (subcommandTuples trailingHyphenSys "name") [""] = true ∧
    "" ∈ list_subcommands trailingHyphenSys "name" :=
  claim_C8 trailingHyphenSys "name" "/bin" ["name-"] (by decide) (by decide)
    (by decide) (by decide)

/-- Claim C3 is false on the code. First, `list_subcommands` splits the
whole candidate filename on hyphens, so for the hyphenated command name
`a-b` the file `a-b-c` is listed as subcommand `b-c`, which resolution
reassembles to the non-existent filename `a-b-b-c` and fails with the
not-found failure — even though `/bin/a-b-c` exists and is executable.
Second, discovery never checks execute permission, so the existing but
non-executable `/bin/name-run` is listed as `run` yet fails to resolve
with the not-executable failure. -/
theorem claim_C3_counterexample :
    ("b-c" ∈ list_subcommands hyphenSys "a-b" ∧
      _command_abspath hyphenSys "a-b" "b-c" =
        .error (notFoundErr "a-b" ("a-b" ++ "-" ++ "b-c"))) ∧
    ("run" ∈ list_subcommands nonExecSys "name" ∧
      _command_abspath nonExecSys "name" "run" =
        .error (notExecErr "name" ("name" ++ "-" ++ "run"))) := by
  refine ⟨⟨?_, ?_⟩, ?_, ?_⟩ <;> decide

/-- Claim C3 amended: every subcommand name returned by the catalog
resolves successfully provided the command name contains no hyphen, no
search-path directory name contains the path separator, the joined search
path is non-empty, every listed candidate file has a slash-free name and
exists as a non-directory file in its directory, and every file present
under a search directory is executable. -/
theorem claim_C3_amended (sys : Sys) (cn : String)
    (hcn : ∀ c ∈ cn.data, ¬c = '-')
    (hnc : ∀ d ∈ _path_with_self sys, ∀ c ∈ d.data, ¬c = ':')
    (hne : joinChar ':' (_path_with_self sys) ≠ "")
    (hfiles : ∀ d ∈ _path_with_self sys, ∀ f ∈ (sys.listdir d).getD [],
      strStarts f (cn ++ "-") = true →
        (∀ c ∈ f.data, ¬c = '/') ∧
        accessCheckF sys (pathJoin d f) = true)
    (hexec : ∀ d ∈ _path_with_self sys, ∀ f : String,
      accessCheckF sys (pathJoin d f) = true →
        sys.accessX (pathJoin d f) = true) :
    ∀ s ∈ list_subcommands sys cn,
      ∃ p, _command_abspath sys cn s = .ok p := by
  intro s hs
  obtain ⟨t, htup, hns, rfl⟩ := (mem_list_subcommands sys cn s).mp hs
  obtain ⟨d, hd, names, hld, f, hf, hsw, hsplit⟩ :=
    (mem_subcommandTuples sys cn t).mp htup
  have hfd : f ∈ (sys.listdir d).getD [] := by
    rw [hld]
    exact hf
  obtain ⟨hslash, hacc⟩ := hfiles d hd f hfd hsw
  obtain ⟨rest, rfl⟩ := (strStarts_iff f (cn ++ "-")).mp hsw
  have hdataf : ((cn ++ "-") ++ rest).data = cn.data ++ '-' :: rest.data := by
    rw [String.data_append, String.data_append]
    show (cn.data ++ ['-']) ++ rest.data = _
    simp
  have hsplitf : splitChar '-' ((cn ++ "-") ++ rest) =
      cn :: splitChar '-' rest := by
    rw [splitChar, hdataf,
      splitCharAux_append_sep '-' cn.data rest.data [] hcn]
    simp [strMkData, splitChar]
  have ht : t = splitChar '-' rest := by
    rw [← hsplit, hsplitf]
    simp
  have hjoin : joinChar '-' t = rest := by
    rw [ht, joinChar_splitChar]
  have hcmd : cn ++ "-" ++ joinChar '-' t = (cn ++ "-") ++ rest := by
    rw [hjoin]
  have hdn : dirname (cn ++ "-" ++ joinChar '-' t) = "" := by
    rw [hcmd]
    exact dirname_no_slash _ hslash
  have hwf := whichF_eq_whichSearch sys (cn ++ "-" ++ joinChar '-' t) _
    hdn hne
  rw [splitChar_joinChar_path sys hnc] at hwf
  cases hws : whichSearch sys (cn ++ "-" ++ joinChar '-' t)
      (_path_with_self sys) [] with
  | none =>
    exfalso
    have hnone := (whichSearch_eq_none_iff sys _ _ _).mp hws d hd (by simp)
    rw [hcmd] at hnone
    rw [hnone] at hacc
    exact Bool.false_ne_true hacc
  | some p =>
    obtain ⟨d', hd', hp, haccp⟩ := whichSearch_eq_some sys _ _ _ p hws
    have hX : sys.accessX p = true := by
      rw [hp]
      rw [hp] at haccp
      exact hexec d' hd' _ haccp
    refine ⟨p, ?_⟩
    unfold _command_abspath
    rw [hwf, hws]
    simp [hX]

/-- Claim C3 amended, instantiated: on a state where every candidate in
`/bin` is an executable regular file and the command name `name` has no
hyphen, the listed subcommand `bar-baz` resolves successfully. -/
theorem claim_C3_amended_witness :
    ∃ p, _command_abspath roundTripSys "name" "bar-baz" = .ok p :=
  claim_C3_amended roundTripSys "name" (by decide) (by decide) (by decide)
    (by decide)
    (by
      intro d hd f hacc
      simp only [accessCheckF, Bool.and_eq_true] at hacc
      exact hacc.1)
    "bar-baz" (by decide)

end Argpoints
